import Mathlib

/-!
Shallow embedding of `rapid_dev/hash_path_generator.py`, a script that
builds a synthetic Merkle authentication path: a random 32-byte leaf, a
fixed number of junction steps (random sibling, random orientation,
SHA-256 parent), and a printed dump of leaf, per-step sibling digests with
orientation labels, and root.

Bytes are modelled as `Nat` values below 256, byte strings as `List Nat`.
The process-wide pseudorandom generator (`random.getrandbits`) is modelled
as an abstract deterministic draw stream with a cursor: each call to
`getrandbits k` consumes one position of the stream and reduces the drawn
value modulo `2 ^ k`.
-/

/-! ## SHA-256 (model of `hashlib.sha256`) -/

/-- Right rotation of a 32-bit word represented as a `Nat` below `2 ^ 32`. -/
def rotr32 (n x : Nat) : Nat :=
  ((x >>> n) ||| (x <<< (32 - n))) % 4294967296

/-- SHA-256 `Ch` function. -/
def shaCh (e f g : Nat) : Nat :=
  (e &&& f) ^^^ ((e ^^^ 4294967295) &&& g)

/-- SHA-256 `Maj` function. -/
def shaMaj (a b c : Nat) : Nat :=
  (a &&& b) ^^^ (a &&& c) ^^^ (b &&& c)

/-- SHA-256 big sigma 0. -/
def bigSigma0 (x : Nat) : Nat :=
  rotr32 2 x ^^^ rotr32 13 x ^^^ rotr32 22 x

/-- SHA-256 big sigma 1. -/
def bigSigma1 (x : Nat) : Nat :=
  rotr32 6 x ^^^ rotr32 11 x ^^^ rotr32 25 x

/-- SHA-256 small sigma 0. -/
def smallSigma0 (x : Nat) : Nat :=
  rotr32 7 x ^^^ rotr32 18 x ^^^ (x >>> 3)

/-- SHA-256 small sigma 1. -/
def smallSigma1 (x : Nat) : Nat :=
  rotr32 17 x ^^^ rotr32 19 x ^^^ (x >>> 10)

/-- The 64 SHA-256 round constants. -/
def shaK : List Nat :=
  [1116352408, 1899447441, 3049323471, 3921009573,
   961987163, 1508970993, 2453635748, 2870763221,
   3624381080, 310598401, 607225278, 1426881987,
   1925078388, 2162078206, 2614888103, 3248222580,
   3835390401, 4022224774, 264347078, 604807628,
   770255983, 1249150122, 1555081692, 1996064986,
   2554220882, 2821834349, 2952996808, 3210313671,
   3336571891, 3584528711, 113926993, 338241895,
   666307205, 773529912, 1294757372, 1396182291,
   1695183700, 1986661051, 2177026350, 2456956037,
   2730485921, 2820302411, 3259730800, 3345764771,
   3516065817, 3600352804, 4094571909, 275423344,
   430227734, 506948616, 659060556, 883997877,
   958139571, 1322822218, 1537002063, 1747873779,
   1955562222, 2024104815, 2227730452, 2361852424,
   2428436474, 2756734187, 3204031479, 3329325298]

/-- Working state of the SHA-256 compression function: eight 32-bit words. -/
structure Hash8 where
  a : Nat
  b : Nat
  c : Nat
  d : Nat
  e : Nat
  f : Nat
  g : Nat
  h : Nat
deriving DecidableEq

/-- SHA-256 initial hash value. -/
def shaH0 : Hash8 :=
  ⟨1779033703, 3144134277, 1013904242, 2773480762,
   1359893119, 2600822924, 528734635, 1541459225⟩

/-- Group a byte list into big-endian 32-bit words (trailing bytes dropped;
inputs are always a multiple of four bytes). -/
def bytesToWords : List Nat → List Nat
  | b0 :: b1 :: b2 :: b3 :: rest =>
      (((b0 * 256 + b1) * 256 + b2) * 256 + b3) :: bytesToWords rest
  | _ => []

/-- Extend the message schedule `count` more words; `ws` holds the words
produced so far in reverse order (most recent first). -/
def scheduleExtend : Nat → List Nat → List Nat
  | 0, ws => ws
  | count + 1, ws =>
      let w2 := ws.getD 1 0
      let w7 := ws.getD 6 0
      let w15 := ws.getD 14 0
      let w16 := ws.getD 15 0
      scheduleExtend count
        (((smallSigma1 w2 + w7 + smallSigma0 w15 + w16) % 4294967296) :: ws)

/-- The 64-word message schedule of one 64-byte block. -/
def schedule (block : List Nat) : List Nat :=
  (scheduleExtend 48 (bytesToWords block).reverse).reverse

/-- One SHA-256 round, consuming one (round constant, schedule word) pair. -/
def shaRound (kw : Nat × Nat) (s : Hash8) : Hash8 :=
  let t1 := (s.h + bigSigma1 s.e + shaCh s.e s.f s.g + kw.1 + kw.2) % 4294967296
  let t2 := (bigSigma0 s.a + shaMaj s.a s.b s.c) % 4294967296
  ⟨(t1 + t2) % 4294967296, s.a, s.b, s.c,
   (s.d + t1) % 4294967296, s.e, s.f, s.g⟩

/-- Compress one 64-byte block into the running hash value. -/
def compressBlock (hv : Hash8) (block : List Nat) : Hash8 :=
  let s := (shaK.zip (schedule block)).foldl (fun st kw => shaRound kw st) hv
  ⟨(hv.a + s.a) % 4294967296, (hv.b + s.b) % 4294967296,
   (hv.c + s.c) % 4294967296, (hv.d + s.d) % 4294967296,
   (hv.e + s.e) % 4294967296, (hv.f + s.f) % 4294967296,
   (hv.g + s.g) % 4294967296, (hv.h + s.h) % 4294967296⟩

/-- Big-endian bytes of a 32-bit word. -/
def wordBytesBE (x : Nat) : List Nat :=
  [(x >>> 24) % 256, (x >>> 16) % 256, (x >>> 8) % 256, x % 256]

/-- Serialize the final hash state as the 32-byte digest. -/
def digestOfState (s : Hash8) : List Nat :=
  wordBytesBE s.a ++ wordBytesBE s.b ++ wordBytesBE s.c ++ wordBytesBE s.d ++
    wordBytesBE s.e ++ wordBytesBE s.f ++ wordBytesBE s.g ++ wordBytesBE s.h

/-- Big-endian 8-byte encoding of the bit length, as SHA-256 padding requires. -/
def lenBytesBE (n : Nat) : List Nat :=
  [(n >>> 56) % 256, (n >>> 48) % 256, (n >>> 40) % 256, (n >>> 32) % 256,
   (n >>> 24) % 256, (n >>> 16) % 256, (n >>> 8) % 256, n % 256]

/-- SHA-256 padding: one byte of value 128, zeros up to 56 mod 64, then the 64-bit
big-endian bit length. -/
def shaPad (msg : List Nat) : List Nat :=
  msg ++ 128 :: List.replicate ((119 - msg.length % 64) % 64) 0 ++
    lenBytesBE (8 * msg.length)

/-- Split a byte list into 64-byte blocks; the fuel argument only bounds the
recursion and is always passed at least the length of the list. -/
def toBlocks : Nat → List Nat → List (List Nat)
  | 0, _ => []
  | fuel + 1, l =>
      if l.isEmpty then [] else l.take 64 :: toBlocks fuel (l.drop 64)

/-- SHA-256 of a byte string: pad, split into blocks, compress each block,
serialize the final state. -/
def sha256 (msg : List Nat) : List Nat :=
  let padded := shaPad msg
  digestOfState ((toBlocks padded.length padded).foldl compressBlock shaH0)

/-! ## The incremental hashing interface of `hashlib`

`hashlib.sha256()` returns a hash object; `update` feeds more bytes and
`digest` produces SHA-256 of everything fed so far. -/

/-- A `hashlib` SHA-256 hash object, identified by the bytes fed so far. -/
structure Sha256Ctx where
  buf : List Nat
deriving DecidableEq

/-- A fresh hash object, as returned by `hashlib.sha256()`. -/
def sha256_new : Sha256Ctx := ⟨[]⟩

/-- Model of the update method: append more data to the bytes being hashed. -/
def Sha256Ctx.update (c : Sha256Ctx) (data : List Nat) : Sha256Ctx :=
  ⟨c.buf ++ data⟩

/-- Model of the digest method: SHA-256 of all bytes fed so far. -/
def Sha256Ctx.digest (c : Sha256Ctx) : List Nat :=
  sha256 c.buf

/-! ## The pseudorandom generator

`random.getrandbits` draws from the process-wide Mersenne Twister, which we
model as an abstract deterministic stream `seq` with a cursor `pos`: each
call consumes one position and reduces the value modulo `2 ^ k`. -/

/-- State of the process-wide pseudorandom generator. -/
structure Rng where
  seq : Nat → Nat
  pos : Nat

/-- Model of random.getrandbits: one draw from the stream, reduced to `k` bits. -/
def getrandbits (k : Nat) (g : Rng) : Nat × Rng :=
  (g.seq g.pos % 2 ^ k, ⟨g.seq, g.pos + 1⟩)

/-! ## The script `hash_path_generator.py` -/

/-- Source function make_little_big: reverse the first 16 bytes and the last 16
bytes independently, returning the two reversed halves. -/
def make_little_big (little : List Nat) : List Nat × List Nat :=
  ((little.take 16).reverse, (little.drop 16).reverse)

/-- Body of generate_random_hash: an 8-bit draw for each of
`range(0, count)` positions, with `count = 32` at the call site. -/
def drawRandomBytes : Nat → Rng → List Nat × Rng
  | 0, g => ([], g)
  | count + 1, g =>
      let b := getrandbits 8 g
      let rest := drawRandomBytes count b.2
      (b.1 :: rest.1, rest.2)

/-- Source function generate_random_hash: a bytearray of 32 draws of 8 bits. -/
def generate_random_hash (g : Rng) : List Nat × Rng :=
  drawRandomBytes 32 g

/-- Source function get_parent_node: a fresh SHA-256 object updated with `a` and
then with `b`; the hash object itself is returned. -/
def get_parent_node (a b : List Nat) : Sha256Ctx :=
  (sha256_new.update a).update b

/-- Source function generate_random_junction: draw a random sibling, then a random
direction bit; if the direction is true hash sibling-then-child, otherwise
child-then-sibling; return `(direction, parent.digest(), rand)`. -/
def generate_random_junction (child : List Nat) (g : Rng) :
    (Bool × List Nat × List Nat) × Rng :=
  let r := generate_random_hash g
  let rand := r.1
  let b := getrandbits 1 r.2
  let direction := b.1 == 1
  let parent :=
    if direction then get_parent_node rand child else get_parent_node child rand
  ((direction, parent.digest, rand), b.2)

/-- The path construction loop: `for i in range(0, depth)` starting from
`next_child = child`, collecting `direction_selector`, `path_digest`, and
the final `next_child`. The script runs it with `depth = 2`. -/
def pathLoop : Nat → List Nat → Rng → List Bool × List (List Nat) × List Nat × Rng
  | 0, child, g => ([], [], child, g)
  | depth + 1, child, g =>
      match generate_random_junction child g with
      | ((direction, next_child, pd), g1) =>
        match pathLoop depth next_child g1 with
        | (ds, pds, root, g2) => (direction :: ds, pd :: pds, root, g2)

/-- The data a full run of the script computes before printing. -/
structure RunResult where
  leaf : List Nat
  dirs : List Bool
  sibs : List (List Nat)
  root : List Nat

/-- The computation of the script generalized over the loop bound: generate the
leaf, then run the path construction loop. -/
def runWithDepth (depth : Nat) (g : Rng) : RunResult × Rng :=
  let l := generate_random_hash g
  match pathLoop depth l.1 l.2 with
  | (ds, pds, root, g2) => (⟨l.1, ds, pds, root⟩, g2)

/-- The loop bound hardcoded in the script: `for i in range(0, 2)`. -/
def mainDepth : Nat := 2

/-- Model of int.from_bytes with little byte order. -/
def int_from_bytes_little (l : List Nat) : Nat :=
  l.foldr (fun b acc => b + 256 * acc) 0

/-- The bracketed pair the script prints for a 32-byte value:
a list of the two halves from make_little_big, each read as a
little-endian integer. -/
def fmtVals (h : List Nat) : List Nat :=
  [int_from_bytes_little (make_little_big h).1,
   int_from_bytes_little (make_little_big h).2]

/-- One printed line of the output of the script. -/
inductive OutLine where
  | leafLine (vals : List Nat) : OutLine
  | digestLine (idx : Nat) (label : String) (vals : List Nat) : OutLine
  | rootLine (vals : List Nat) : OutLine
deriving DecidableEq

/-- The label the printing loop computes from a stored direction flag:
`"Left"` when the flag is true, `"Right"` otherwise. -/
def orientLabel (d : Bool) : String :=
  if d then "Left" else "Right"

/-- The printed output of the script, generalized over the loop bound: the leaf
line, one digest line per index of `direction_selector` (label from the
flag, value from `path_digest`), and the root line. -/
def outputWithDepth (depth : Nat) (g : Rng) : List OutLine :=
  let r := (runWithDepth depth g).1
  OutLine.leafLine (fmtVals r.leaf) ::
    ((List.range r.dirs.length).map (fun i =>
      OutLine.digestLine i (orientLabel (r.dirs.getD i false))
        (fmtVals (r.sibs.getD i []))) ++
    [OutLine.rootLine (fmtVals r.root)])

/-- The whole script: output of a run with the hardcoded loop bound. -/
def programOutput (g : Rng) : List OutLine :=
  outputWithDepth mainDepth g

/-! ## Spec-side definitions

These follow the wording of the specification and are compared against the
definitions embedded from the source. -/

/-- Verifier replay described by the specification: walk the recorded steps
from the leaf, hashing sibling-then-child when the recorded orientation is
LEFT (true) and child-then-sibling when it is RIGHT (false). -/
def replayPath (leaf : List Nat) (steps : List (Bool × List Nat)) : List Nat :=
  steps.foldl
    (fun child s =>
      if s.1 then (get_parent_node s.2 child).digest
      else (get_parent_node child s.2).digest)
    leaf

/-- Output shape described by the specification: the formatted leaf first,
then one line per step in bottom-to-top order carrying the index of the
step, its orientation label and its formatted sibling digest, then the
formatted root. -/
def expectedOutput (leaf : List Nat) (steps : List (Bool × List Nat))
    (root : List Nat) : List OutLine :=
  OutLine.leafLine (fmtVals leaf) ::
    (steps.enum.map (fun p =>
      OutLine.digestLine p.1 (orientLabel p.2.1) (fmtVals p.2.2)) ++
    [OutLine.rootLine (fmtVals root)])

/-- Lowercase hexadecimal digit for a value below 16. -/
def hexDigit (x : Nat) : Char :=
  if x < 10 then Char.ofNat (48 + x) else Char.ofNat (87 + x)

/-- Modelled from the spec: the hex mode of the Formatter, absent from the
source file (only an unused import of binascii remains); section 4.5 of the
spec describes it as rendering a Hash256 as a lowercase hexadecimal string
of 64 characters, two digits per byte. -/
def hexFormat (h : List Nat) : String :=
  String.mk (h.flatMap (fun b => [hexDigit (b / 16), hexDigit (b % 16)]))

/-- Numeric value of a lowercase hexadecimal digit character. -/
def hexVal (c : Char) : Nat :=
  if 97 ≤ c.toNat then c.toNat - 87 else c.toNat - 48

/-- Decode a list of hexadecimal characters two at a time into bytes. -/
def hexDecodeChars : List Char → List Nat
  | c1 :: c2 :: rest => (16 * hexVal c1 + hexVal c2) :: hexDecodeChars rest
  | _ => []

/-- Modelled from the spec: decoding the hex string back to bytes, the
inverse direction of the hex mode round-trip stated in section 8. -/
def hexDecode (s : String) : List Nat :=
  hexDecodeChars s.data

/-- Whether a character is a lowercase hexadecimal digit. -/
def isHexLowerChar (c : Char) : Bool :=
  ("0123456789abcdef".toList).contains c

/-- A concrete generator state used for closed instantiations: the all-zero
draw stream at cursor zero. -/
def zeroRng : Rng := ⟨fun _ => 0, 0⟩

/-! ## Helper lemmas -/

theorem sha256_length (m : List Nat) : (sha256 m).length = 32 := by
  simp [sha256, digestOfState, wordBytesBE]

theorem digest_length (c : Sha256Ctx) : c.digest.length = 32 :=
  sha256_length _

theorem drawRandomBytes_eq (count : Nat) (g : Rng) :
    drawRandomBytes count g =
      ((List.range count).map (fun i => g.seq (g.pos + i) % 256),
       Rng.mk g.seq (g.pos + count)) := by
  induction count generalizing g with
  | zero => simp [drawRandomBytes]
  | succ n ih =>
      rw [drawRandomBytes, ih]
      simp only [getrandbits, Prod.mk.injEq]
      refine ⟨?_, by congr 1; omega⟩
      rw [List.range_succ_eq_map, List.map_cons, List.map_map]
      refine congrArg₂ List.cons (by norm_num) ?_
      apply List.map_congr_left
      intro a _
      have h1 : g.pos + 1 + a = g.pos + (a + 1) := by omega
      simp [Function.comp, h1]

theorem generate_random_hash_length (g : Rng) :
    (generate_random_hash g).1.length = 32 := by
  simp [generate_random_hash, drawRandomBytes_eq]

theorem pathLoop_succ (n : Nat) (child : List Nat) (g : Rng) :
    pathLoop (n + 1) child g =
      ((generate_random_junction child g).1.1 ::
         (pathLoop n (generate_random_junction child g).1.2.1
           (generate_random_junction child g).2).1,
       (generate_random_junction child g).1.2.2 ::
         (pathLoop n (generate_random_junction child g).1.2.1
           (generate_random_junction child g).2).2.1,
       (pathLoop n (generate_random_junction child g).1.2.1
         (generate_random_junction child g).2).2.2.1,
       (pathLoop n (generate_random_junction child g).1.2.1
         (generate_random_junction child g).2).2.2.2) := rfl

theorem junction_parent (child : List Nat) (g : Rng) :
    (generate_random_junction child g).1.2.1 =
      (if (generate_random_junction child g).1.1
       then get_parent_node (generate_random_junction child g).1.2.2 child
       else get_parent_node child (generate_random_junction child g).1.2.2).digest :=
  rfl

theorem junction_sib (child : List Nat) (g : Rng) :
    (generate_random_junction child g).1.2.2 = (generate_random_hash g).1 :=
  rfl

theorem junction_dir (child : List Nat) (g : Rng) :
    (generate_random_junction child g).1.1 =
      ((getrandbits 1 (generate_random_hash g).2).1 == 1) :=
  rfl

theorem junction_rng (child : List Nat) (g : Rng) :
    (generate_random_junction child g).2 =
      (getrandbits 1 (generate_random_hash g).2).2 :=
  rfl

theorem junction_parent_length (child : List Nat) (g : Rng) :
    (generate_random_junction child g).1.2.1.length = 32 := by
  rw [junction_parent]
  exact digest_length _

theorem junction_sib_length (child : List Nat) (g : Rng) :
    (generate_random_junction child g).1.2.2.length = 32 := by
  rw [junction_sib]
  exact generate_random_hash_length g

theorem pathLoop_dirs_length (n : Nat) :
    ∀ (child : List Nat) (g : Rng), (pathLoop n child g).1.length = n := by
  induction n with
  | zero => intro child g; rfl
  | succ m ih => intro child g; rw [pathLoop_succ]; simp [ih]

theorem pathLoop_sibs_length (n : Nat) :
    ∀ (child : List Nat) (g : Rng), (pathLoop n child g).2.1.length = n := by
  induction n with
  | zero => intro child g; rfl
  | succ m ih => intro child g; rw [pathLoop_succ]; simp [ih]

theorem pathLoop_sibs_all32 (n : Nat) :
    ∀ (child : List Nat) (g : Rng),
      ((pathLoop n child g).2.1).all (fun pd => pd.length == 32) = true := by
  induction n with
  | zero => intro child g; rfl
  | succ m ih =>
      intro child g
      rw [pathLoop_succ]
      simp [ih, junction_sib_length]

theorem pathLoopRootLength (n : Nat) :
    ∀ (child : List Nat) (g : Rng), child.length = 32 →
      (pathLoop n child g).2.2.1.length = 32 := by
  induction n with
  | zero => intro child g h; exact h
  | succ m ih =>
      intro child g _
      rw [pathLoop_succ]
      exact ih _ _ (junction_parent_length child g)

theorem pathLoop_replay (n : Nat) :
    ∀ (child : List Nat) (g : Rng),
      replayPath child ((pathLoop n child g).1.zip (pathLoop n child g).2.1) =
        (pathLoop n child g).2.2.1 := by
  induction n with
  | zero => intro child g; rfl
  | succ m ih =>
      intro child g
      rw [pathLoop_succ]
      simp only [List.zip_cons_cons, replayPath, List.foldl_cons]
      have hp : (if (generate_random_junction child g).1.1
            then (get_parent_node (generate_random_junction child g).1.2.2 child).digest
            else (get_parent_node child (generate_random_junction child g).1.2.2).digest)
          = (generate_random_junction child g).1.2.1 := by
        rw [junction_parent, apply_ite Sha256Ctx.digest]
      rw [hp]
      exact ih _ _

theorem runWithDepth_eq (depth : Nat) (g : Rng) :
    runWithDepth depth g =
      (⟨(generate_random_hash g).1,
        (pathLoop depth (generate_random_hash g).1 (generate_random_hash g).2).1,
        (pathLoop depth (generate_random_hash g).1 (generate_random_hash g).2).2.1,
        (pathLoop depth (generate_random_hash g).1 (generate_random_hash g).2).2.2.1⟩,
       (pathLoop depth (generate_random_hash g).1 (generate_random_hash g).2).2.2.2) :=
  rfl

theorem runWithDepth_dirs_length (depth : Nat) (g : Rng) :
    (runWithDepth depth g).1.dirs.length = depth := by
  rw [runWithDepth_eq]
  exact pathLoop_dirs_length depth _ _

theorem runWithDepth_sibs_length (depth : Nat) (g : Rng) :
    (runWithDepth depth g).1.sibs.length = depth := by
  rw [runWithDepth_eq]
  exact pathLoop_sibs_length depth _ _

theorem rangeMap_enumFrom :
    ∀ (ds : List Bool) (pds : List (List Nat)) (k : Nat), ds.length = pds.length →
      (List.range ds.length).map (fun i =>
        OutLine.digestLine (k + i) (orientLabel (ds.getD i false))
          (fmtVals (pds.getD i []))) =
      (List.enumFrom k (ds.zip pds)).map (fun p =>
        OutLine.digestLine p.1 (orientLabel p.2.1) (fmtVals p.2.2))
  | [], pds, k, h => by simp
  | d :: ds, [], k, h => by simp at h
  | d :: ds, p :: pds, k, h => by
      have h2 : ds.length = pds.length := by simpa using h
      have ih := rangeMap_enumFrom ds pds (k + 1) h2
      rw [List.length_cons, List.range_succ_eq_map, List.map_cons, List.map_map]
      simp only [List.zip_cons_cons, List.enumFrom, List.map_cons]
      rw [List.cons_eq_cons]
      constructor
      · simp
      · refine (List.map_congr_left ?_).trans ih
        intro a _
        have h3 : k + (a + 1) = k + 1 + a := by omega
        simp [Function.comp, List.getD_cons_succ, h3]

theorem hexPair_length (h : List Nat) :
    (h.flatMap (fun b => [hexDigit (b / 16), hexDigit (b % 16)])).length =
      2 * h.length := by
  induction h with
  | nil => rfl
  | cons b t ih =>
      simp only [List.flatMap_cons, List.cons_append, List.nil_append,
        List.length_cons, ih]
      omega

theorem hexVal_hexDigit : ∀ x : Nat, x < 16 → hexVal (hexDigit x) = x := by
  decide

theorem hexDigit_lower : ∀ x : Nat, x < 16 → isHexLowerChar (hexDigit x) = true := by
  decide

theorem hexDecodeChars_flatMap :
    ∀ h : List Nat, (∀ b ∈ h, b < 256) →
      hexDecodeChars (h.flatMap (fun b => [hexDigit (b / 16), hexDigit (b % 16)])) =
        h := by
  intro h
  induction h with
  | nil => intro _; rfl
  | cons b t ih =>
      intro hb
      have hb1 : b < 256 := hb b (by simp)
      have hbt : ∀ x ∈ t, x < 256 := fun x hx => hb x (by simp [hx])
      have d1 : b / 16 < 16 := by omega
      have d2 : b % 16 < 16 := by omega
      simp only [List.flatMap_cons, List.cons_append, List.nil_append,
        hexDecodeChars]
      rw [List.cons_eq_cons]
      refine ⟨?_, ih hbt⟩
      rw [hexVal_hexDigit _ d1, hexVal_hexDigit _ d2]
      omega

theorem hexChars_lower :
    ∀ h : List Nat, (∀ b ∈ h, b < 256) →
      ((h.flatMap (fun b => [hexDigit (b / 16), hexDigit (b % 16)])).all
        isHexLowerChar) = true := by
  intro h
  induction h with
  | nil => intro _; rfl
  | cons b t ih =>
      intro hb
      have hb1 : b < 256 := hb b (by simp)
      have hbt : ∀ x ∈ t, x < 256 := fun x hx => hb x (by simp [hx])
      have d1 : b / 16 < 16 := by omega
      have d2 : b % 16 < 16 := by omega
      simp only [List.flatMap_cons, List.cons_append, List.nil_append,
        List.all_cons, ih hbt, hexDigit_lower _ d1, hexDigit_lower _ d2,
        Bool.true_and, Bool.and_true]

/-! ## Claims -/

/-- C1: replaying ParentHash from the leaf through all recorded steps —
hashing sibling-then-child when the recorded orientation is LEFT (true) and
child-then-sibling when it is RIGHT (false) — reproduces exactly the root
value the program prints, for every loop bound and every generator state
(the script uses bound 2; the root line printed is the formatted root field,
as the C7 theorem shows). -/
theorem C1_replay_reproduces_root (depth : Nat) (g : Rng) :
    replayPath (runWithDepth depth g).1.leaf
      ((runWithDepth depth g).1.dirs.zip (runWithDepth depth g).1.sibs) =
      (runWithDepth depth g).1.root :=
  pathLoop_replay depth (generate_random_hash g).1 (generate_random_hash g).2

/-- C2: in every junction step, when the drawn orientation flag is true the
parent digest hashes the sibling before the child, and when it is false the
child before the sibling; the returned triple carries the flag, the parent
digest and the sibling, and the label later printed for the flag ("Left"
exactly when true, "Right" exactly when false) matches the concatenation
order actually used. -/
theorem C2_junction_orientation_order (child : List Nat) (g : Rng) :
    ((generate_random_junction child g).1.1 = true →
      (generate_random_junction child g).1.2.1 =
        (get_parent_node (generate_random_junction child g).1.2.2 child).digest) ∧
    ((generate_random_junction child g).1.1 = false →
      (generate_random_junction child g).1.2.1 =
        (get_parent_node child (generate_random_junction child g).1.2.2).digest) ∧
    (orientLabel (generate_random_junction child g).1.1 = "Left" ↔
      (generate_random_junction child g).1.1 = true) ∧
    (orientLabel (generate_random_junction child g).1.1 = "Right" ↔
      (generate_random_junction child g).1.1 = false) := by
  have hp := junction_parent child g
  cases hb : (generate_random_junction child g).1.1 with
  | false =>
      rw [hb] at hp
      simp only [Bool.false_eq_true, if_false] at hp
      exact ⟨by simp, fun _ => hp, by simp [orientLabel], by simp [orientLabel]⟩
  | true =>
      rw [hb] at hp
      simp only [if_true] at hp
      exact ⟨fun _ => hp, by simp, by simp [orientLabel], by simp [orientLabel]⟩

/-- Closed instantiation of the C2 theorem at a concrete child and generator
state. -/
theorem C2_junction_orientation_order_witness :
    ((generate_random_junction [] zeroRng).1.1 = true →
      (generate_random_junction [] zeroRng).1.2.1 =
        (get_parent_node (generate_random_junction [] zeroRng).1.2.2 []).digest) ∧
    ((generate_random_junction [] zeroRng).1.1 = false →
      (generate_random_junction [] zeroRng).1.2.1 =
        (get_parent_node [] (generate_random_junction [] zeroRng).1.2.2).digest) ∧
    (orientLabel (generate_random_junction [] zeroRng).1.1 = "Left" ↔
      (generate_random_junction [] zeroRng).1.1 = true) ∧
    (orientLabel (generate_random_junction [] zeroRng).1.1 = "Right" ↔
      (generate_random_junction [] zeroRng).1.1 = false) :=
  C2_junction_orientation_order [] zeroRng

/-- C3: the parent-hash computation is SHA-256 of the concatenation of its
two arguments with the first argument first; the two incremental updates of
the hash object amount to hashing the concatenated byte string, and the
operand order is never swapped. As a pure function of its two inputs it is
deterministic with no side effects. -/
theorem C3_parent_hash_is_sha256_concat (a b : List Nat) :
    (get_parent_node a b).digest = sha256 (a ++ b) := by
  simp [get_parent_node, Sha256Ctx.digest, Sha256Ctx.update, sha256_new]

/-- C4: for every loop bound the path construction performs exactly that many
iterations — both recorded lists have length equal to the bound, with no
extra iteration for the root — and the bound hardcoded in the script is 2. -/
theorem C4_step_list_length_equals_depth (depth : Nat) (g : Rng) :
    (runWithDepth depth g).1.dirs.length = depth ∧
    (runWithDepth depth g).1.sibs.length = depth ∧
    mainDepth = 2 ∧
    (runWithDepth mainDepth g).1.sibs.length = 2 :=
  ⟨runWithDepth_dirs_length depth g, runWithDepth_sibs_length depth g, rfl,
   runWithDepth_sibs_length 2 g⟩

/-- C5: every hash value the program produces is exactly 32 bytes long: the
leaf, every sibling recorded in the path, the root, and every parent-hash
digest for any inputs, at every loop bound and generator state. -/
theorem C5_all_hashes_are_32_bytes (depth : Nat) (g : Rng) :
    (runWithDepth depth g).1.leaf.length = 32 ∧
    ((runWithDepth depth g).1.sibs).all (fun pd => pd.length == 32) = true ∧
    (runWithDepth depth g).1.root.length = 32 ∧
    ∀ a b : List Nat, (get_parent_node a b).digest.length = 32 := by
  refine ⟨generate_random_hash_length g, ?_, ?_, fun a b => digest_length _⟩
  · rw [runWithDepth_eq]
    exact pathLoop_sibs_all32 depth _ _
  · rw [runWithDepth_eq]
    exact pathLoopRootLength depth _ _ (generate_random_hash_length g)

/-- C6: the split little-endian mode round-trips: reversing each of the two
returned parts and concatenating them in order reconstructs the original
32-byte input. -/
theorem C6_little_big_split_roundtrip (l : List Nat) (_hlen : l.length = 32) :
    (make_little_big l).1.reverse ++ (make_little_big l).2.reverse = l := by
  simp [make_little_big]

/-- Closed instantiation of the C6 theorem at a concrete 32-byte input. -/
theorem C6_little_big_split_roundtrip_witness :
    (List.replicate 32 (0 : Nat)).length = 32 ∧
    (make_little_big (List.replicate 32 0)).1.reverse ++
      (make_little_big (List.replicate 32 0)).2.reverse =
      List.replicate 32 0 :=
  ⟨by decide, C6_little_big_split_roundtrip _ (by decide)⟩

/-- C7: the output of a run is, in order, one line for the formatted leaf,
then exactly one line per path step in bottom-to-top order carrying the index
of the step, its orientation label and its formatted sibling digest, then one
line for the formatted root — the shape the spec describes, for every loop
bound and generator state. -/
theorem C7_output_line_order (depth : Nat) (g : Rng) :
    outputWithDepth depth g =
      expectedOutput (runWithDepth depth g).1.leaf
        ((runWithDepth depth g).1.dirs.zip (runWithDepth depth g).1.sibs)
        (runWithDepth depth g).1.root := by
  have hlen : (runWithDepth depth g).1.dirs.length =
      (runWithDepth depth g).1.sibs.length := by
    rw [runWithDepth_dirs_length, runWithDepth_sibs_length]
  have h := rangeMap_enumFrom (runWithDepth depth g).1.dirs
    (runWithDepth depth g).1.sibs 0 hlen
  simp only [Nat.zero_add] at h
  simp only [outputWithDepth, expectedOutput, List.enum]
  rw [List.cons_eq_cons]
  exact ⟨rfl, by rw [h]⟩

/-- C8 counterexample: with the loop bound below 1 (here 0) and a concrete
generator state, the program does not fail fast and produces output anyway:
the full print list appears and its root line repeats the leaf value — there
is no InvalidConfiguration check anywhere in the code. -/
theorem C8_fail_fast_counterexample :
    outputWithDepth 0 zeroRng =
      [OutLine.leafLine [0, 0], OutLine.rootLine [0, 0]] ∧
    (runWithDepth 0 zeroRng).1.root = (runWithDepth 0 zeroRng).1.leaf := by
  exact ⟨rfl, rfl⟩

/-- C8 amended: the script performs no depth validation and defines no
InvalidConfiguration error; the loop bound is hardcoded to 2. For any loop
bound the full output of bound-plus-two lines is produced, and with a bound
below 1 (zero iterations) the root silently equals the leaf. -/
theorem C8_no_depth_validation (depth : Nat) (g : Rng) :
    (outputWithDepth depth g).length = depth + 2 ∧
    (runWithDepth 0 g).1.root = (runWithDepth 0 g).1.leaf := by
  refine ⟨?_, rfl⟩
  simp [outputWithDepth, runWithDepth_dirs_length]

/-- C9: the hex mode of the Formatter (modelled from the spec, since the
source file only imports binascii without using it) renders a 32-byte value
as a lowercase hexadecimal string of exactly 64 characters, and decoding
that string yields the original bytes. -/
theorem C9_hex_mode_roundtrip (h : List Nat) (hlen : h.length = 32)
    (hbytes : ∀ b ∈ h, b < 256) :
    (hexFormat h).length = 64 ∧
    ((hexFormat h).data).all isHexLowerChar = true ∧
    hexDecode (hexFormat h) = h := by
  refine ⟨?_, hexChars_lower h hbytes, hexDecodeChars_flatMap h hbytes⟩
  have hl := hexPair_length h
  rw [hlen] at hl
  exact hl

/-- Closed instantiation of the C9 theorem at a concrete 32-byte input. -/
theorem C9_hex_mode_roundtrip_witness :
    (List.replicate 32 (0 : Nat)).length = 32 ∧
    (∀ b ∈ List.replicate 32 (0 : Nat), b < 256) ∧
    ((hexFormat (List.replicate 32 0)).length = 64 ∧
     ((hexFormat (List.replicate 32 0)).data).all isHexLowerChar = true ∧
     hexDecode (hexFormat (List.replicate 32 0)) = List.replicate 32 0) :=
  ⟨by decide, by decide, C9_hex_mode_roundtrip _ (by decide) (by decide)⟩

/-- C10: random draws happen in a fixed deterministic sequence — within each
junction step the 32 sibling bytes occupy stream positions pos to pos + 31,
the orientation bit is drawn strictly after them at position pos + 32, and
the step leaves the cursor at pos + 33 — and two runs started from equal
generator states print identical full output. -/
theorem C10_draw_order_and_determinism (child : List Nat) (g g2 : Rng)
    (hseq : g.seq = g2.seq) (hpos : g.pos = g2.pos) :
    (generate_random_junction child g).1.2.2 =
      (List.range 32).map (fun i => g.seq (g.pos + i) % 256) ∧
    (generate_random_junction child g).1.1 = (g.seq (g.pos + 32) % 2 == 1) ∧
    (generate_random_junction child g).2 = Rng.mk g.seq (g.pos + 33) ∧
    programOutput g = programOutput g2 := by
  obtain ⟨s1, p1⟩ := g
  obtain ⟨s2, p2⟩ := g2
  cases hseq
  cases hpos
  refine ⟨?_, ?_, ?_, rfl⟩
  · rw [junction_sib]
    simp [generate_random_hash, drawRandomBytes_eq]
  · rw [junction_dir]
    simp [generate_random_hash, drawRandomBytes_eq, getrandbits, pow_one]
  · rw [junction_rng]
    simp [generate_random_hash, drawRandomBytes_eq, getrandbits, Rng.mk.injEq]

/-- Closed instantiation of the C10 theorem at a concrete child and a pair of
equal generator states. -/
theorem C10_draw_order_and_determinism_witness :
    (generate_random_junction [] zeroRng).1.2.2 =
      (List.range 32).map (fun i => zeroRng.seq (zeroRng.pos + i) % 256) ∧
    (generate_random_junction [] zeroRng).1.1 =
      (zeroRng.seq (zeroRng.pos + 32) % 2 == 1) ∧
    (generate_random_junction [] zeroRng).2 =
      Rng.mk zeroRng.seq (zeroRng.pos + 33) ∧
    programOutput zeroRng = programOutput zeroRng :=
  C10_draw_order_and_determinism [] zeroRng zeroRng rfl rfl
